import Mathlib

/-!
Shallow embedding of the ArduinoExtra toolkit (namespace `aex`):
`src/ArduinoExtra/Vector.h` (growable sequence), `src/ArduinoExtra/Array.h`
(fixed sequence) and `src/ArduinoExtra/Functional.h` (type-erased callable
wrapper).  Machine memory is modelled at the value level: a storage block is a
list of `Option`s where `none` stands for an uninitialized or destroyed slot,
and the callable heap is an explicit store of cells addressed by naturals.
-/

namespace aex

/-! ## Vector.h — `aex::Vector<T>`

`m_data` models the heap block: one entry per allocated slot, `some x` for a
slot holding a live (constructed) `T`, `none` for raw/destroyed storage.
`m_size` and `m_capacity` are the two counters of the class.  A destructor
call `m_data[i].~T()` is modelled as setting slot `i` to `none` (a no-op when
`i` is outside the allocation, mirroring that such a call touches memory the
vector does not own). -/

structure Vector (T : Type) where
  m_data : List (Option T)
  m_size : Nat
  m_capacity : Nat
  deriving Repr, DecidableEq

namespace Vector

/-- Default constructor: `m_data = nullptr`, `m_size = 0`, `m_capacity = 0`. -/
def empty (T : Type) : Vector T := ⟨[], 0, 0⟩

/-- `reAllocate(newCapacity)` (Vector.h lines 205-232): allocate a raw block of
`newCapacity` slots; if `newCapacity < m_size` clamp `m_size` (the source has
only a `// warning` comment there — no error is surfaced); move the first
`m_size` elements into the new block in ascending order; destroy the originals
and free the old block; install the new block and capacity. -/
def reAllocate (v : Vector T) (newCapacity : Nat) : Vector T :=
  let size' := if newCapacity < v.m_size then newCapacity else v.m_size
  let newBlock : List (Option T) :=
    List.ofFn (fun i : Fin newCapacity =>
      if (i : Nat) < size' then v.m_data.getD i none else none)
  ⟨newBlock, size', newCapacity⟩

/-- `pushBack(const T&)` / `pushBack(T&&)` (Vector.h lines 63-74 and 84-95;
both overloads have the same body, copy vs. move being identical at the value
level): re-allocate to `m_capacity + m_capacity/2 + 2` when
`m_size >= m_capacity`, then write `value` at slot `m_size` and increment
`m_size`. -/
def pushBack (v : Vector T) (value : T) : Vector T :=
  let v := if v.m_size ≥ v.m_capacity
    then v.reAllocate (v.m_capacity + v.m_capacity / 2 + 2)
    else v
  ⟨v.m_data.set v.m_size (some value), v.m_size + 1, v.m_capacity⟩

/-- `popBack()` (Vector.h lines 121-128): when non-empty, decrement `m_size`
and destroy the element at the new `m_size`. -/
def popBack (v : Vector T) : Vector T :=
  if v.m_size > 0 then
    ⟨v.m_data.set (v.m_size - 1) none, v.m_size - 1, v.m_capacity⟩
  else v

/-- The loop body of `clear()` (Vector.h lines 136-139) runs `m_size` times,
each iteration executing `m_data[m_size].~T()` — the source destroys slot
`m_size`, not slot `i` (the loop variable is unused). -/
def clearLoop (sz : Nat) (data : List (Option T)) : Nat → List (Option T)
  | 0 => data
  | n + 1 => clearLoop sz (data.set sz none) n

/-- `clear()` (Vector.h lines 134-142): run the destruction loop, then reset
`m_size` to 0.  The block and `m_capacity` are untouched. -/
def clear (v : Vector T) : Vector T :=
  ⟨clearLoop v.m_size v.m_data v.m_size, 0, v.m_capacity⟩

/-- `operator[]` (Vector.h lines 150-158 / 168-176): the `index >= m_size`
branch is an empty block (only a `// error` comment), so the function returns
`m_data[index]` unconditionally; the returned value is the content of slot
`index` (`none` when the slot is uninitialized or outside the allocation). -/
def get (v : Vector T) (index : Nat) : Option T :=
  v.m_data.getD index none

/-- `getSize()` (Vector.h lines 183-186). -/
def getSize (v : Vector T) : Nat := v.m_size

/-- `isEmpty()` (Vector.h lines 194-197). -/
def isEmpty (v : Vector T) : Bool := v.m_size == 0

end Vector

/-! ## Array.h — `aex::Array<T, S>`

The member `T data[S]` is modelled as a total function on `Nat`: values at
indices `≥ S` stand for whatever bytes follow the array in memory (reading
them is undefined behaviour in C++, but the source performs the read). -/

structure Array (T : Type) (S : Nat) where
  data : Nat → T

namespace Array

/-- `at(index)` (Array.h lines 105-113): the `index >= S` branch is an empty
block (only a `// error` comment), so the read happens unconditionally. -/
def at' (a : Array T S) (index : Nat) : T :=
  a.data index

end Array

/-! ## Functional.h — `aex::Function<R(Args...)>` and the `priv` callables

Type parameters: `σ` is the state type of the class `C` whose methods are
bound (`MemberCallable`'s `C`), `α` is the argument tuple `Args...`, `ρ` is
the return type `R`.  A bound object is identified by its address (a `Nat`)
into an object store `objs : Nat → σ` supplied at invocation time; a method
pointer is modelled by its observable result `σ → α → ρ` on the receiver's
current state.  The callable heap is explicit: wrappers hold a pointer
(`Option Nat`, `none` = `nullptr`) into a store of cells, so ownership,
`delete`, double-free and use-after-free are all value-level facts.  An
operation whose C++ counterpart dereferences or deletes a dangling pointer
returns `none` (undefined behaviour). -/

/-- The closed set of `priv::Callable` subclasses: `FunctionCallable` holds a
function pointer (Functional.h line 150); `MemberCallable` holds a reference
to the object and a method pointer (lines 203-204). -/
inductive Callable (σ α ρ : Type) where
  | functionCallable (m_functionPtr : α → ρ)
  | memberCallable (m_objectReference : Nat) (m_functionPtr : σ → α → ρ)

namespace Callable

/-- The payload allocated by the virtual `copy()`:
`FunctionCallable::copy` (lines 133-136) builds a new `FunctionCallable` from
`m_functionPtr`; `MemberCallable::copy` (lines 186-189) builds a new
`MemberCallable` from `m_objectReference` and `m_functionPtr` — the object
reference itself is copied, not the object. -/
def copy : Callable σ α ρ → Callable σ α ρ
  | functionCallable fp => functionCallable fp
  | memberCallable r fp => memberCallable r fp

/-- The virtual `operator()`: `FunctionCallable::operator()` (lines 144-147)
calls `m_functionPtr(args...)`; `MemberCallable::operator()` (lines 197-200)
calls `(m_objectReference.*m_functionPtr)(args...)`, reading the referenced
object's current state from the store. -/
def invoke (c : Callable σ α ρ) (objs : Nat → σ) (a : α) : ρ :=
  match c with
  | functionCallable fp => fp a
  | memberCallable r fp => fp (objs r) a

end Callable

/-- The heap of `new`-allocated callable cells.  Addresses are list indices;
`none` marks a freed cell. -/
structure Heap (σ α ρ : Type) where
  cells : List (Option (Callable σ α ρ))

namespace Heap

def empty (σ α ρ : Type) : Heap σ α ρ := ⟨[]⟩

/-- `new`: append a cell, returning the heap and the fresh address. -/
def alloc (h : Heap σ α ρ) (c : Callable σ α ρ) : Heap σ α ρ × Nat :=
  (⟨h.cells ++ [some c]⟩, h.cells.length)

/-- Read the cell a pointer refers to; `none` when it was freed or never
allocated. -/
def deref (h : Heap σ α ρ) (p : Nat) : Option (Callable σ α ρ) :=
  h.cells.getD p none

/-- `delete` on a non-null pointer: frees the cell; deleting a pointer whose
cell is already gone is undefined behaviour (`none`). -/
def free (h : Heap σ α ρ) (p : Nat) : Option (Heap σ α ρ) :=
  match h.deref p with
  | some _ => some ⟨h.cells.set p none⟩
  | none => none

end Heap

/-- `aex::Function<R(Args...)>`: owns `m_callable`, a pointer to a
heap-allocated callable (`nullptr` by default, Functional.h line 348). -/
structure Function (σ α ρ : Type) where
  m_callable : Option Nat

namespace Function

/-- `Function::bind(R(*)(Args...))` (lines 315-318) and the converting
constructor (lines 229-232), which has the same body: allocate a
`FunctionCallable` and hand the pointer to the wrapper. -/
def bind (h : Heap σ α ρ) (functionPtr : α → ρ) : Heap σ α ρ × Function σ α ρ :=
  let (h, p) := h.alloc (.functionCallable functionPtr)
  (h, ⟨some p⟩)

/-- `Function::bind(C&, R(C::*)(Args...))` (lines 328-332): allocate a
`MemberCallable` bound to the given object reference. -/
def bindMember (h : Heap σ α ρ) (objectRef : Nat) (functionPtr : σ → α → ρ) :
    Heap σ α ρ × Function σ α ρ :=
  let (h, p) := h.alloc (.memberCallable objectRef functionPtr)
  (h, ⟨some p⟩)

/-- The copy constructors (lines 239-242 and 249-252, identical bodies):
`m_callable = other.m_callable->copy()` — dereference the source's pointer,
allocate a duplicate of its target.  `none` when `other.m_callable` is null
or dangling (undefined behaviour in the source). -/
def copyCtor (h : Heap σ α ρ) (other : Function σ α ρ) :
    Option (Heap σ α ρ × Function σ α ρ) :=
  match other.m_callable with
  | none => none
  | some p =>
    match h.deref p with
    | none => none
    | some c =>
      let (h, q) := h.alloc c.copy
      some (h, ⟨some q⟩)

/-- The copy-assignment operators (lines 262-270 and 280-288, identical
bodies): `delete m_callable` when non-null, then
`m_callable = other.m_callable->copy()`.  There is no self-assignment guard:
when `other` is `self`, the dereference happens after the free and faults.
(The source also omits the `return` statement both overloads declare.) -/
def assign (h : Heap σ α ρ) (self other : Function σ α ρ) :
    Option (Heap σ α ρ × Function σ α ρ) :=
  let freed : Option (Heap σ α ρ) :=
    match self.m_callable with
    | some p => h.free p
    | none => some h
  match freed with
  | none => none
  | some h1 =>
    match other.m_callable with
    | none => none
    | some q =>
      match h1.deref q with
      | none => none
      | some c =>
        let (h2, r) := h1.alloc c.copy
        some (h2, ⟨some r⟩)

/-- The destructor (lines 293-296): `delete m_callable`
(`delete nullptr` is a no-op). -/
def destroy (h : Heap σ α ρ) (f : Function σ α ρ) : Option (Heap σ α ρ) :=
  match f.m_callable with
  | none => some h
  | some p => h.free p

/-- `Function::operator()` (lines 304-307): `(*m_callable)(args...)` —
dereference the owned pointer and invoke the target, forwarding the
arguments and returning its result unchanged. -/
def call (h : Heap σ α ρ) (objs : Nat → σ) (f : Function σ α ρ) (a : α) :
    Option ρ :=
  match f.m_callable with
  | none => none
  | some p =>
    match h.deref p with
    | none => none
    | some c => some (c.invoke objs a)

end Function

/-- The free function of the spec example: `multiply(a, b) -> a*b`, over exact
rationals (the float values `2.0`, `5.0`, `10.0` are all exactly
representable). -/
def multiply (p : ℚ × ℚ) : ℚ := p.1 * p.2

/-! ## Client operation sequences on a `Vector`

The mutating public interface reachable from the default constructor:
`pushBack`, `popBack`, `clear`.  `absRun` is the abstract model — the list of
values appended in order, minus removals from the end. -/

namespace Vector

inductive Op (T : Type) where
  | push (x : T)
  | pop
  | clearAll

/-- Run one public mutating operation on the concrete vector. -/
def step (v : Vector T) : Op T → Vector T
  | .push x => v.pushBack x
  | .pop => v.popBack
  | .clearAll => v.clear

/-- Run a sequence of operations starting from the default-constructed
vector. -/
def runOps (ops : List (Op T)) : Vector T := ops.foldl step (empty T)

/-- The abstract effect of one operation on the model list. -/
def astep (l : List T) : Op T → List T
  | .push x => l ++ [x]
  | .pop => l.dropLast
  | .clearAll => []

/-- The abstract model of a whole operation sequence. -/
def absRun (ops : List (Op T)) : List T := ops.foldl astep []

/-- The coupling invariant between a concrete vector and its model list: the
block has exactly `m_capacity` slots, `m_size` live elements fit in it, and
the first `m_size` slots hold exactly the model values. -/
def Inv (v : Vector T) (l : List T) : Prop :=
  v.m_data.length = v.m_capacity ∧ v.m_size = l.length ∧
  v.m_size ≤ v.m_capacity ∧ v.m_data.take v.m_size = l.map some

end Vector

end aex

namespace aex

/-! ### List helper lemmas -/

theorem take_set_self {α : Type} (l : List α) (n : Nat) (a : α) :
    (l.set n a).take n = l.take n := by
  induction l generalizing n with
  | nil => simp
  | cons x xs ih =>
    cases n with
    | zero => simp
    | succ m => simpa using ih m

theorem take_succ_set {α : Type} (l : List α) (n : Nat) (a : α)
    (h : n < l.length) : (l.set n a).take (n + 1) = l.take n ++ [a] := by
  induction l generalizing n with
  | nil => simp at h
  | cons x xs ih =>
    cases n with
    | zero => simp
    | succ m =>
      have hm : m < xs.length := by simpa using h
      simpa using ih m hm

theorem clearLoop_length {T : Type} (sz : Nat) (data : List (Option T)) :
    ∀ n, (Vector.clearLoop sz data n).length = data.length := by
  intro n
  induction n generalizing data with
  | zero => rfl
  | succ m ih => simpa [Vector.clearLoop] using ih (data.set sz none)

theorem take_ofFn_prefix {T : Type} (data : List (Option T)) (k cap : Nat)
    (hk : k ≤ cap) (hdl : k ≤ data.length) :
    (List.ofFn (fun i : Fin cap =>
        if (i : Nat) < k then data.getD i none else none)).take k
      = data.take k := by
  apply List.ext_getElem
  · simp; omega
  · intro i h1 h2
    have hik : i < k := by
      simp at h1
      omega
    have hid : i < data.length := Nat.lt_of_lt_of_le hik hdl
    rw [List.getElem_take, List.getElem_take, List.getElem_ofFn]
    simp [hik, List.getD_eq_getElem?_getD, List.getElem?_eq_getElem hid]

theorem getD_set_self {α : Type} (l : List α) (n : Nat) (a d : α)
    (h : n < l.length) : (l.set n a).getD n d = a := by
  induction l generalizing n with
  | nil => simp at h
  | cons x xs ih =>
    cases n with
    | zero => rfl
    | succ m => exact ih m (by simpa using h)

/-! ### Heap and callable helper lemmas -/

theorem invoke_copy {σ α ρ : Type} (c : Callable σ α ρ) (objs : Nat → σ)
    (a : α) : c.copy.invoke objs a = c.invoke objs a := by
  cases c <;> rfl

theorem deref_lt_length {σ α ρ : Type} {h : Heap σ α ρ} {p : Nat}
    {c : Callable σ α ρ} (hd : h.deref p = some c) : p < h.cells.length := by
  by_contra hge
  have hnone : h.cells.getD p none = none := by
    rw [List.getD_eq_getElem?_getD, List.getElem?_eq_none (by omega)]
    rfl
  unfold Heap.deref at hd
  rw [hnone] at hd
  exact Option.noConfusion hd

theorem deref_alloc_old {σ α ρ : Type} (h : Heap σ α ρ) (c : Callable σ α ρ)
    (p : Nat) (hp : p < h.cells.length) :
    (h.alloc c).1.deref p = h.deref p := by
  unfold Heap.alloc Heap.deref
  simp [List.getD_eq_getElem?_getD, List.getElem?_append_left hp]

theorem deref_alloc_new {σ α ρ : Type} (h : Heap σ α ρ)
    (c : Callable σ α ρ) : (h.alloc c).1.deref (h.alloc c).2 = some c := by
  unfold Heap.alloc Heap.deref
  simp [List.getD_eq_getElem?_getD, List.getElem?_concat_length]

theorem free_of_deref {σ α ρ : Type} {h : Heap σ α ρ} {p : Nat}
    {c : Callable σ α ρ} (hd : h.deref p = some c) :
    h.free p = some ⟨h.cells.set p none⟩ := by
  unfold Heap.free
  rw [hd]

theorem free_cells {σ α ρ : Type} {h h2 : Heap σ α ρ} {p : Nat}
    (hf : h.free p = some h2) : h2.cells = h.cells.set p none := by
  unfold Heap.free at hf
  cases hd : h.deref p with
  | none => rw [hd] at hf; exact Option.noConfusion hf
  | some c =>
    rw [hd] at hf
    have he := Option.some.inj hf
    rw [← he]

theorem deref_free_ne {σ α ρ : Type} {h h2 : Heap σ α ρ} {p q : Nat}
    (hf : h.free p = some h2) (hne : p ≠ q) : h2.deref q = h.deref q := by
  have hc := free_cells hf
  unfold Heap.deref
  rw [hc]
  simp [List.getD_eq_getElem?_getD, List.getElem?_set_ne hne]

theorem call_eq_of_deref {σ α ρ : Type} {h : Heap σ α ρ}
    {f : Function σ α ρ} {p : Nat} {c : Callable σ α ρ}
    (hp : f.m_callable = some p) (hd : h.deref p = some c) (objs : Nat → σ)
    (a : α) : Function.call h objs f a = some (c.invoke objs a) := by
  simp [Function.call, hp, hd]

theorem copyCtor_inv {σ α ρ : Type} {h h' : Heap σ α ρ}
    {f g : Function σ α ρ}
    (hcc : Function.copyCtor h f = some (h', g)) :
    ∃ p c, f.m_callable = some p ∧ h.deref p = some c ∧
      h' = ⟨h.cells ++ [some c.copy]⟩ ∧ g = ⟨some h.cells.length⟩ := by
  unfold Function.copyCtor at hcc
  split at hcc
  · exact Option.noConfusion hcc
  · rename_i p hfp
    split at hcc
    · exact Option.noConfusion hcc
    · rename_i c hd
      simp only [Heap.alloc, Option.some.injEq, Prod.mk.injEq] at hcc
      exact ⟨p, c, hfp, hd, hcc.1.symm, hcc.2.symm⟩

/-! ### The coupling invariant is preserved by every public mutator -/

theorem inv_empty (T : Type) : Vector.Inv (Vector.empty T) ([] : List T) :=
  ⟨rfl, rfl, Nat.le_refl 0, rfl⟩

theorem inv_pushBack {T : Type} {v : Vector T} {l : List T} (x : T)
    (h : Vector.Inv v l) : Vector.Inv (v.pushBack x) (l ++ [x]) := by
  obtain ⟨hlen, hsz, hle, htake⟩ := h
  unfold Vector.pushBack
  by_cases hge : v.m_size ≥ v.m_capacity
  · have heq : v.m_size = v.m_capacity := Nat.le_antisymm hle hge
    simp only [if_pos hge]
    unfold Vector.reAllocate
    have hnlt : ¬ (v.m_capacity + v.m_capacity / 2 + 2 < v.m_size) := by omega
    simp only [if_neg hnlt]
    have hblock : v.m_size <
        (List.ofFn (fun i : Fin (v.m_capacity + v.m_capacity / 2 + 2) =>
          if (i : Nat) < v.m_size then v.m_data.getD i none else none)).length := by
      simp
      omega
    refine ⟨by simp, by simp [hsz], by simp; omega, ?_⟩
    rw [take_succ_set _ _ _ hblock,
        take_ofFn_prefix v.m_data v.m_size _ (by omega) (by omega), htake]
    simp
  · simp only [if_neg hge]
    have hlt : v.m_size < v.m_capacity := Nat.lt_of_not_le hge
    refine ⟨by simp [hlen], by simp [hsz], ?_, ?_⟩
    · show v.m_size + 1 ≤ v.m_capacity
      omega
    · rw [take_succ_set _ _ _ (by omega), htake]
      simp

theorem inv_popBack {T : Type} {v : Vector T} {l : List T}
    (h : Vector.Inv v l) : Vector.Inv v.popBack l.dropLast := by
  obtain ⟨hlen, hsz, hle, htake⟩ := h
  unfold Vector.popBack
  by_cases hpos : v.m_size > 0
  · simp only [if_pos hpos]
    refine ⟨by simp [hlen], by simp [hsz], ?_, ?_⟩
    · show v.m_size - 1 ≤ v.m_capacity
      omega
    · show (v.m_data.set (v.m_size - 1) none).take (v.m_size - 1) =
        l.dropLast.map some
      rw [take_set_self, List.dropLast_eq_take, List.map_take, ← htake,
          List.take_take]
      congr 1
      omega
  · simp only [if_neg hpos]
    have hl : l = [] := by
      have : l.length = 0 := by omega
      exact List.eq_nil_of_length_eq_zero this
    subst hl
    exact ⟨hlen, hsz, hle, htake⟩

theorem inv_clear {T : Type} {v : Vector T} {l : List T}
    (h : Vector.Inv v l) : Vector.Inv v.clear ([] : List T) := by
  obtain ⟨hlen, hsz, hle, htake⟩ := h
  refine ⟨?_, rfl, Nat.zero_le _, rfl⟩
  show (Vector.clearLoop v.m_size v.m_data v.m_size).length = v.m_capacity
  rw [clearLoop_length, hlen]

theorem inv_step {T : Type} {v : Vector T} {l : List T} (op : Vector.Op T)
    (h : Vector.Inv v l) : Vector.Inv (Vector.step v op) (Vector.astep l op) := by
  cases op with
  | push x => exact inv_pushBack x h
  | pop => exact inv_popBack h
  | clearAll => exact inv_clear h

theorem inv_foldl {T : Type} (ops : List (Vector.Op T)) :
    ∀ {v : Vector T} {l : List T}, Vector.Inv v l →
      Vector.Inv (ops.foldl Vector.step v) (ops.foldl Vector.astep l) := by
  induction ops with
  | nil => intro v l h; exact h
  | cons op rest ih => intro v l h; exact ih (inv_step op h)

theorem inv_runOps {T : Type} (ops : List (Vector.Op T)) :
    Vector.Inv (Vector.runOps ops) (Vector.absRun ops) :=
  inv_foldl ops (inv_empty T)

theorem inv_foldl_pushBack {T : Type} (xs : List T) :
    ∀ {v : Vector T} {l : List T}, Vector.Inv v l →
      Vector.Inv (xs.foldl Vector.pushBack v) (l ++ xs) := by
  induction xs with
  | nil => intro v l h; simpa using h
  | cons x rest ih =>
    intro v l h
    simpa using ih (inv_pushBack x h)

/-- Reading a live index through the coupling invariant yields the model
value. -/
theorem inv_get {T : Type} {v : Vector T} {l : List T} (h : Vector.Inv v l)
    (i : Nat) (hi : i < v.m_size) : v.get i = l[i]? := by
  obtain ⟨hlen, hsz, hle, htake⟩ := h
  have hil : i < l.length := by omega
  have e1 : (v.m_data.take v.m_size)[i]? = v.m_data[i]? :=
    List.getElem?_take_of_lt hi
  rw [htake] at e1
  unfold Vector.get
  rw [List.getD_eq_getElem?_getD, ← e1, List.getElem?_map,
      List.getElem?_eq_getElem hil]
  rfl

/-! ## Claim theorems -/

/-- Claim C1: appending the values of `xs` in order to the
default-constructed vector via `pushBack` and reading back index `i < n`
through `operator[]` returns exactly the `i`-th appended value. -/
theorem pushBack_roundTrip {T : Type} (xs : List T) (i : Nat)
    (h : i < xs.length) :
    Vector.get (xs.foldl Vector.pushBack (Vector.empty T)) i = some xs[i] := by
  have hinv := inv_foldl_pushBack xs (inv_empty T)
  rw [List.nil_append] at hinv
  have hsz : (xs.foldl Vector.pushBack (Vector.empty T)).m_size = xs.length :=
    hinv.2.1
  rw [inv_get hinv i (by omega), List.getElem?_eq_getElem h]

/-- Witness for C1 at the list `[3, 1, 4]` and index `2`. -/
theorem pushBack_roundTrip_witness :
    2 < ([3, 1, 4] : List ℕ).length ∧
    Vector.get ([3, 1, 4].foldl Vector.pushBack (Vector.empty ℕ)) 2 =
      some 4 :=
  ⟨by decide, pushBack_roundTrip [3, 1, 4] 2 (by decide)⟩

/-- Claim C2: `pushBack` inserts the value as the new last element (slot
`m_size`, with `m_size` then incremented); when `m_size = m_capacity` it
first reallocates to capacity `m_capacity + m_capacity/2 + 2`; when
`m_size < m_capacity` no reallocation occurs — the capacity is unchanged and
the storage block is the old block with only slot `m_size` written. -/
theorem pushBack_growth {T : Type} (v : Vector T) (x : T)
    (hlen : v.m_data.length = v.m_capacity)
    (hle : v.m_size ≤ v.m_capacity) :
    (v.pushBack x).m_size = v.m_size + 1 ∧
    (v.pushBack x).get v.m_size = some x ∧
    (v.m_size = v.m_capacity →
      (v.pushBack x).m_capacity = v.m_capacity + v.m_capacity / 2 + 2) ∧
    (v.m_size < v.m_capacity →
      (v.pushBack x).m_capacity = v.m_capacity ∧
      (v.pushBack x).m_data = v.m_data.set v.m_size (some x)) := by
  refine ⟨?_, ?_, fun heq => ?_, fun hlt => ?_⟩
  · by_cases hge : v.m_size ≥ v.m_capacity
    · have hnlt : ¬ (v.m_capacity + v.m_capacity / 2 + 2 < v.m_size) := by
        omega
      simp [Vector.pushBack, Vector.reAllocate, hge, hnlt]
    · simp [Vector.pushBack, hge]
  · by_cases hge : v.m_size ≥ v.m_capacity
    · have hnlt : ¬ (v.m_capacity + v.m_capacity / 2 + 2 < v.m_size) := by
        omega
      simp only [Vector.pushBack, Vector.reAllocate, if_pos hge, if_neg hnlt,
        Vector.get]
      apply getD_set_self
      simp
      omega
    · simp only [Vector.pushBack, if_neg hge, Vector.get]
      apply getD_set_self
      omega
  · have hge : v.m_size ≥ v.m_capacity := by omega
    have hnlt : ¬ (v.m_capacity + v.m_capacity / 2 + 2 < v.m_size) := by omega
    simp [Vector.pushBack, Vector.reAllocate, hge, hnlt]
  · have hge : ¬ (v.m_size ≥ v.m_capacity) := by omega
    exact ⟨by simp [Vector.pushBack, hge], by simp [Vector.pushBack, hge]⟩

/-- Witness for C2 on the one-element vector `pushBack(empty, 1)`
(size 1, capacity 2), pushing the value 9. -/
theorem pushBack_growth_witness :
    (((Vector.empty ℕ).pushBack 1).m_data.length =
      ((Vector.empty ℕ).pushBack 1).m_capacity) ∧
    (((Vector.empty ℕ).pushBack 1).m_size ≤
      ((Vector.empty ℕ).pushBack 1).m_capacity) ∧
    ((((Vector.empty ℕ).pushBack 1).pushBack 9).m_size =
        ((Vector.empty ℕ).pushBack 1).m_size + 1 ∧
      (((Vector.empty ℕ).pushBack 1).pushBack 9).get
        ((Vector.empty ℕ).pushBack 1).m_size = some 9 ∧
      (((Vector.empty ℕ).pushBack 1).m_size =
          ((Vector.empty ℕ).pushBack 1).m_capacity →
        (((Vector.empty ℕ).pushBack 1).pushBack 9).m_capacity =
          ((Vector.empty ℕ).pushBack 1).m_capacity +
            ((Vector.empty ℕ).pushBack 1).m_capacity / 2 + 2) ∧
      (((Vector.empty ℕ).pushBack 1).m_size <
          ((Vector.empty ℕ).pushBack 1).m_capacity →
        (((Vector.empty ℕ).pushBack 1).pushBack 9).m_capacity =
          ((Vector.empty ℕ).pushBack 1).m_capacity ∧
        (((Vector.empty ℕ).pushBack 1).pushBack 9).m_data =
          ((Vector.empty ℕ).pushBack 1).m_data.set
            ((Vector.empty ℕ).pushBack 1).m_size (some 9))) :=
  ⟨by decide, by decide,
    pushBack_growth ((Vector.empty ℕ).pushBack 1) 9 (by decide) (by decide)⟩

/-- Claim C3: after any interleaving of `pushBack`, `popBack` and `clear`
starting from the default-constructed vector, `m_size ≤ m_capacity`, and
every index `i < m_size` reads back through `operator[]` the value at
position `i` of the model list (values appended in order minus removals from
the end). -/
theorem interleaved_ops_invariant {T : Type} (ops : List (Vector.Op T))
    (i : Nat) (hi : i < (Vector.runOps ops).m_size) :
    (Vector.runOps ops).m_size ≤ (Vector.runOps ops).m_capacity ∧
    i < (Vector.absRun ops).length ∧
    (Vector.runOps ops).get i = (Vector.absRun ops)[i]? := by
  have hinv := inv_runOps ops
  refine ⟨hinv.2.2.1, ?_, inv_get hinv i hi⟩
  have := hinv.2.1
  omega

/-- Witness for C3 on the sequence push 3, push 4, pop, push 6 (model list
`[3, 6]`) at index 1. -/
theorem interleaved_ops_invariant_witness :
    1 < (Vector.runOps
        [Vector.Op.push 3, Vector.Op.push 4, Vector.Op.pop,
          Vector.Op.push (6 : ℕ)]).m_size ∧
    ((Vector.runOps
        [Vector.Op.push 3, Vector.Op.push 4, Vector.Op.pop,
          Vector.Op.push (6 : ℕ)]).m_size ≤
      (Vector.runOps
        [Vector.Op.push 3, Vector.Op.push 4, Vector.Op.pop,
          Vector.Op.push (6 : ℕ)]).m_capacity ∧
    1 < (Vector.absRun
        [Vector.Op.push 3, Vector.Op.push 4, Vector.Op.pop,
          Vector.Op.push (6 : ℕ)]).length ∧
    (Vector.runOps
        [Vector.Op.push 3, Vector.Op.push 4, Vector.Op.pop,
          Vector.Op.push (6 : ℕ)]).get 1 =
      (Vector.absRun
        [Vector.Op.push 3, Vector.Op.push 4, Vector.Op.pop,
          Vector.Op.push (6 : ℕ)])[1]?) :=
  ⟨by decide,
    interleaved_ops_invariant
      [Vector.Op.push 3, Vector.Op.push 4, Vector.Op.pop,
        Vector.Op.push (6 : ℕ)] 1 (by decide)⟩

/-- Claim C4: the copy constructor allocates a new heap cell holding a
duplicate of the source wrapper's target: the copy's pointer differs from the
original's, invoking the copy yields the same result as invoking the
original, and destroying either wrapper leaves the other invocable with
unchanged behaviour. -/
theorem function_copy_independent {σ α ρ : Type} (h h' : Heap σ α ρ)
    (f g : Function σ α ρ) (hcc : Function.copyCtor h f = some (h', g)) :
    g.m_callable ≠ f.m_callable ∧
    (∀ (objs : Nat → σ) (a : α),
       (Function.call h' objs g a).isSome = true ∧
       Function.call h' objs g a = Function.call h' objs f a) ∧
    (∃ h2, Function.destroy h' f = some h2 ∧
       ∀ (objs : Nat → σ) (a : α),
         Function.call h2 objs g a = Function.call h' objs g a) ∧
    (∃ h3, Function.destroy h' g = some h3 ∧
       ∀ (objs : Nat → σ) (a : α),
         Function.call h3 objs f a = Function.call h' objs f a) := by
  obtain ⟨p, c, hfp, hd, hh, hg⟩ := copyCtor_inv hcc
  subst hh
  subst hg
  have hplen : p < h.cells.length := deref_lt_length hd
  have hd'p : (⟨h.cells ++ [some c.copy]⟩ : Heap σ α ρ).deref p = some c := by
    show (h.alloc c.copy).1.deref p = some c
    rw [deref_alloc_old h c.copy p hplen, hd]
  have hd'q : (⟨h.cells ++ [some c.copy]⟩ : Heap σ α ρ).deref
      h.cells.length = some c.copy :=
    deref_alloc_new h c.copy
  have hcallg : ∀ (objs : Nat → σ) (a : α),
      Function.call (⟨h.cells ++ [some c.copy]⟩ : Heap σ α ρ) objs
        ⟨some h.cells.length⟩ a = some (c.copy.invoke objs a) :=
    fun objs a => call_eq_of_deref rfl hd'q objs a
  have hcallf : ∀ (objs : Nat → σ) (a : α),
      Function.call (⟨h.cells ++ [some c.copy]⟩ : Heap σ α ρ) objs f a =
        some (c.invoke objs a) :=
    fun objs a => call_eq_of_deref hfp hd'p objs a
  refine ⟨?_, ?_, ?_, ?_⟩
  · rw [hfp]
    intro hcon
    have := Option.some.inj hcon
    omega
  · intro objs a
    rw [hcallg, hcallf, invoke_copy]
    exact ⟨rfl, rfl⟩
  · refine ⟨⟨(h.cells ++ [some c.copy]).set p none⟩, ?_, ?_⟩
    · unfold Function.destroy
      rw [hfp]
      exact free_of_deref hd'p
    · intro objs a
      have hfr : (⟨h.cells ++ [some c.copy]⟩ : Heap σ α ρ).free p =
          some ⟨(h.cells ++ [some c.copy]).set p none⟩ :=
        free_of_deref hd'p
      have hde : (⟨(h.cells ++ [some c.copy]).set p none⟩ :
          Heap σ α ρ).deref h.cells.length =
          (⟨h.cells ++ [some c.copy]⟩ : Heap σ α ρ).deref
            h.cells.length :=
        deref_free_ne hfr (by omega)
      rw [hcallg, call_eq_of_deref rfl (hde.trans hd'q) objs a]
  · refine ⟨⟨(h.cells ++ [some c.copy]).set h.cells.length none⟩, ?_, ?_⟩
    · unfold Function.destroy
      exact free_of_deref hd'q
    · intro objs a
      have hfr : (⟨h.cells ++ [some c.copy]⟩ : Heap σ α ρ).free
          h.cells.length =
          some ⟨(h.cells ++ [some c.copy]).set h.cells.length none⟩ :=
        free_of_deref hd'q
      have hde : (⟨(h.cells ++ [some c.copy]).set h.cells.length none⟩ :
          Heap σ α ρ).deref p =
          (⟨h.cells ++ [some c.copy]⟩ : Heap σ α ρ).deref p :=
        deref_free_ne hfr (by omega)
      rw [hcallf, call_eq_of_deref hfp (hde.trans hd'p) objs a]

/-- Witness for C4: copying a wrapper bound to the identity function on ℚ. -/
theorem function_copy_independent_witness :
    (Function.copyCtor
        (Function.bind (Heap.empty Unit ℚ ℚ) (fun q : ℚ => q)).1
        (Function.bind (Heap.empty Unit ℚ ℚ) (fun q : ℚ => q)).2 =
      some (⟨[some (Callable.functionCallable (fun q : ℚ => q)),
              some (Callable.functionCallable (fun q : ℚ => q))]⟩,
            ⟨some 1⟩)) ∧
    ((⟨some 1⟩ : Function Unit ℚ ℚ).m_callable ≠
      (Function.bind (Heap.empty Unit ℚ ℚ) (fun q : ℚ => q)).2.m_callable ∧
    (∀ (objs : Nat → Unit) (a : ℚ),
       (Function.call
          (⟨[some (Callable.functionCallable (fun q : ℚ => q)),
             some (Callable.functionCallable (fun q : ℚ => q))]⟩ :
            Heap Unit ℚ ℚ) objs ⟨some 1⟩ a).isSome = true ∧
       Function.call
          (⟨[some (Callable.functionCallable (fun q : ℚ => q)),
             some (Callable.functionCallable (fun q : ℚ => q))]⟩ :
            Heap Unit ℚ ℚ) objs ⟨some 1⟩ a =
         Function.call
          (⟨[some (Callable.functionCallable (fun q : ℚ => q)),
             some (Callable.functionCallable (fun q : ℚ => q))]⟩ :
            Heap Unit ℚ ℚ) objs
          (Function.bind (Heap.empty Unit ℚ ℚ) (fun q : ℚ => q)).2 a) ∧
    (∃ h2, Function.destroy
         (⟨[some (Callable.functionCallable (fun q : ℚ => q)),
            some (Callable.functionCallable (fun q : ℚ => q))]⟩ :
           Heap Unit ℚ ℚ)
         (Function.bind (Heap.empty Unit ℚ ℚ) (fun q : ℚ => q)).2 =
        some h2 ∧
       ∀ (objs : Nat → Unit) (a : ℚ),
         Function.call h2 objs ⟨some 1⟩ a =
           Function.call
             (⟨[some (Callable.functionCallable (fun q : ℚ => q)),
                some (Callable.functionCallable (fun q : ℚ => q))]⟩ :
               Heap Unit ℚ ℚ) objs ⟨some 1⟩ a) ∧
    (∃ h3, Function.destroy
         (⟨[some (Callable.functionCallable (fun q : ℚ => q)),
            some (Callable.functionCallable (fun q : ℚ => q))]⟩ :
           Heap Unit ℚ ℚ) (⟨some 1⟩ : Function Unit ℚ ℚ) = some h3 ∧
       ∀ (objs : Nat → Unit) (a : ℚ),
         Function.call h3 objs
             (Function.bind (Heap.empty Unit ℚ ℚ) (fun q : ℚ => q)).2 a =
           Function.call
             (⟨[some (Callable.functionCallable (fun q : ℚ => q)),
                some (Callable.functionCallable (fun q : ℚ => q))]⟩ :
               Heap Unit ℚ ℚ) objs
             (Function.bind (Heap.empty Unit ℚ ℚ) (fun q : ℚ => q)).2 a)) :=
  ⟨rfl,
    function_copy_independent
      (Function.bind (Heap.empty Unit ℚ ℚ) (fun q : ℚ => q)).1
      ⟨[some (Callable.functionCallable (fun q : ℚ => q)),
        some (Callable.functionCallable (fun q : ℚ => q))]⟩
      (Function.bind (Heap.empty Unit ℚ ℚ) (fun q : ℚ => q)).2
      ⟨some 1⟩ rfl⟩

/-- Claim C5: invoking a wrapper forwards the arguments to the owned callable
target's `operator()` and returns its result unchanged; in particular,
binding the free function `multiply (a, b) = a * b` and invoking the wrapper
with `(2, 5)` returns `10`. -/
theorem function_call_forwards {σ α ρ : Type} (h : Heap σ α ρ)
    (f : Function σ α ρ) (p : Nat) (c : Callable σ α ρ) (objs : Nat → σ)
    (a : α) (hp : f.m_callable = some p) (hd : h.deref p = some c) :
    Function.call h objs f a = some (c.invoke objs a) ∧
    Function.call (Function.bind (Heap.empty Unit (ℚ × ℚ) ℚ) multiply).1
      (fun _ => ()) (Function.bind (Heap.empty Unit (ℚ × ℚ) ℚ) multiply).2
      (2, 5) = some 10 := by
  refine ⟨call_eq_of_deref hp hd objs a, ?_⟩
  show some (multiply (2, 5)) = some 10
  norm_num [multiply]

/-- Witness for C5 on the wrapper binding `multiply`. -/
theorem function_call_forwards_witness :
    ((Function.bind (Heap.empty Unit (ℚ × ℚ) ℚ) multiply).2.m_callable =
      some 0) ∧
    ((Function.bind (Heap.empty Unit (ℚ × ℚ) ℚ) multiply).1.deref 0 =
      some (Callable.functionCallable multiply)) ∧
    (Function.call (Function.bind (Heap.empty Unit (ℚ × ℚ) ℚ) multiply).1
        (fun _ => ()) (Function.bind (Heap.empty Unit (ℚ × ℚ) ℚ) multiply).2
        (2, 5) =
      some ((Callable.functionCallable multiply).invoke (fun _ => ()) (2, 5)) ∧
     Function.call (Function.bind (Heap.empty Unit (ℚ × ℚ) ℚ) multiply).1
        (fun _ => ()) (Function.bind (Heap.empty Unit (ℚ × ℚ) ℚ) multiply).2
        (2, 5) = some 10) :=
  ⟨rfl, rfl,
    function_call_forwards (Function.bind (Heap.empty Unit (ℚ × ℚ) ℚ) multiply).1
      (Function.bind (Heap.empty Unit (ℚ × ℚ) ℚ) multiply).2 0
      (Callable.functionCallable multiply) (fun _ => ()) (2, 5) rfl rfl⟩

/-- Claim C10: a wrapper bound to an instance method via
`bind(objectRef, methodPtr)` and any copy of it reference the same object:
the copy owns a fresh `MemberCallable` cell whose `m_objectReference` is the
identical address, and for every state of the object store both wrappers
dispatch through the object currently at that address — state changes in the
object are observed by invocations through every copy. -/
theorem memberCallable_copy_shares_object {σ α ρ : Type} (h h' : Heap σ α ρ)
    (objectRef : Nat) (fp : σ → α → ρ) (g : Function σ α ρ)
    (hcc : Function.copyCtor (Function.bindMember h objectRef fp).1
      (Function.bindMember h objectRef fp).2 = some (h', g)) :
    (∃ q, g.m_callable = some q ∧
       g.m_callable ≠ (Function.bindMember h objectRef fp).2.m_callable ∧
       h'.deref q = some (Callable.memberCallable objectRef fp)) ∧
    (∀ (objs : Nat → σ) (a : α),
       Function.call h' objs g a = some (fp (objs objectRef) a) ∧
       Function.call h' objs (Function.bindMember h objectRef fp).2 a =
         some (fp (objs objectRef) a)) := by
  obtain ⟨p, c, hfp, hd, hh, hg⟩ := copyCtor_inv hcc
  have hp : p = h.cells.length := by
    have hfp' := hfp
    simp [Function.bindMember, Heap.alloc] at hfp'
    omega
  have hc : c = Callable.memberCallable objectRef fp := by
    rw [hp] at hd
    have h2 : (Function.bindMember h objectRef fp).1.deref h.cells.length =
        some (Callable.memberCallable objectRef fp) :=
      deref_alloc_new h (Callable.memberCallable objectRef fp)
    exact (Option.some.inj (h2.symm.trans hd)).symm
  subst hc
  subst hp
  subst hh
  subst hg
  have hlen1 : (Function.bindMember h objectRef fp).1.cells.length =
      h.cells.length + 1 := by
    simp [Function.bindMember, Heap.alloc]
  have hdq : (⟨(Function.bindMember h objectRef fp).1.cells ++
      [some (Callable.memberCallable objectRef fp).copy]⟩ : Heap σ α ρ).deref
      (Function.bindMember h objectRef fp).1.cells.length =
      some (Callable.memberCallable objectRef fp) :=
    deref_alloc_new (Function.bindMember h objectRef fp).1
      (Callable.memberCallable objectRef fp)
  have hdp : (⟨(Function.bindMember h objectRef fp).1.cells ++
      [some (Callable.memberCallable objectRef fp).copy]⟩ : Heap σ α ρ).deref
      h.cells.length = some (Callable.memberCallable objectRef fp) := by
    have hlt : h.cells.length <
        (Function.bindMember h objectRef fp).1.cells.length := by omega
    have ho := deref_alloc_old (Function.bindMember h objectRef fp).1
      (Callable.memberCallable objectRef fp).copy h.cells.length hlt
    refine ho.trans ?_
    exact deref_alloc_new h (Callable.memberCallable objectRef fp)
  refine ⟨⟨(Function.bindMember h objectRef fp).1.cells.length, rfl, ?_, hdq⟩,
    ?_⟩
  · intro hcon
    have := Option.some.inj hcon
    omega
  · intro objs a
    exact ⟨call_eq_of_deref rfl hdq objs a, call_eq_of_deref rfl hdp objs a⟩

/-- Witness for C10: binding the method `fun s a => s + a` on the object at
address 3 and copying the wrapper. -/
theorem memberCallable_copy_shares_object_witness :
    (Function.copyCtor
        (Function.bindMember (Heap.empty ℚ ℚ ℚ) 3 (fun s a => s + a)).1
        (Function.bindMember (Heap.empty ℚ ℚ ℚ) 3 (fun s a => s + a)).2 =
      some (⟨[some (Callable.memberCallable 3 (fun s a => s + a)),
              some (Callable.memberCallable 3 (fun s a => s + a))]⟩,
            ⟨some 1⟩)) ∧
    ((∃ q, (⟨some 1⟩ : Function ℚ ℚ ℚ).m_callable = some q ∧
       (⟨some 1⟩ : Function ℚ ℚ ℚ).m_callable ≠
         (Function.bindMember (Heap.empty ℚ ℚ ℚ) 3
           (fun s a => s + a)).2.m_callable ∧
       (⟨[some (Callable.memberCallable 3 (fun s a => s + a)),
          some (Callable.memberCallable 3 (fun s a => s + a))]⟩ :
         Heap ℚ ℚ ℚ).deref q =
         some (Callable.memberCallable 3 (fun s a => s + a))) ∧
    (∀ (objs : Nat → ℚ) (a : ℚ),
       Function.call
           (⟨[some (Callable.memberCallable 3 (fun s a => s + a)),
              some (Callable.memberCallable 3 (fun s a => s + a))]⟩ :
             Heap ℚ ℚ ℚ) objs (⟨some 1⟩ : Function ℚ ℚ ℚ) a =
         some (objs 3 + a) ∧
       Function.call
           (⟨[some (Callable.memberCallable 3 (fun s a => s + a)),
              some (Callable.memberCallable 3 (fun s a => s + a))]⟩ :
             Heap ℚ ℚ ℚ) objs
           (Function.bindMember (Heap.empty ℚ ℚ ℚ) 3
             (fun s a => s + a)).2 a =
         some (objs 3 + a))) :=
  ⟨rfl,
    memberCallable_copy_shares_object (Heap.empty ℚ ℚ ℚ)
      ⟨[some (Callable.memberCallable 3 (fun s a => s + a)),
        some (Callable.memberCallable 3 (fun s a => s + a))]⟩
      3 (fun s a => s + a) ⟨some 1⟩ rfl⟩

/-- Claim C6 (code bug, Vector.h line 138): the destruction loop of `clear()`
runs `m_data[m_size].~T()` instead of `m_data[i].~T()` — the loop variable is
unused.  On a vector holding one live element (size 1, capacity 2), `clear`
leaves slot 0 live: the elements at indices `0..size-1` are never destroyed.
The remaining behaviour matches the claim: `m_size` is reset to 0, the
capacity and storage block are retained, `isEmpty()` holds, and a subsequent
`pushBack` succeeds. -/
theorem clear_destroys_wrong_slot :
    Vector.clear (Vector.pushBack (Vector.empty ℕ) 5) =
      ⟨[some 5, none], 0, 2⟩ ∧
    ((Vector.clear (Vector.pushBack (Vector.empty ℕ) 5)).m_data.getD 0 none =
      some 5) ∧
    (Vector.clear (Vector.pushBack (Vector.empty ℕ) 5)).m_size = 0 ∧
    (Vector.clear (Vector.pushBack (Vector.empty ℕ) 5)).m_capacity = 2 ∧
    (Vector.clear (Vector.pushBack (Vector.empty ℕ) 5)).isEmpty = true ∧
    ((Vector.clear (Vector.pushBack (Vector.empty ℕ) 5)).pushBack 9).get 0 =
      some 9 := by
  decide

/-- Claim C7 (code bug): the bounds checks of `Vector::operator[]`
(Vector.h lines 152-155) and `Array::at` (Array.h lines 107-110) are empty
blocks — an out-of-range index yields the raw memory read instead of an
error condition.  After clearing a one-element vector (`m_size = 0`),
`operator[](0)` still yields the stale value 7; on a 2-element array whose
trailing memory is modelled by `fun i => i + 10`, `at(5)` yields 15. -/
theorem checked_access_unenforced :
    (Vector.clear (Vector.pushBack (Vector.empty ℕ) 7)).m_size = 0 ∧
    Vector.get (Vector.clear (Vector.pushBack (Vector.empty ℕ) 7)) 0 =
      some 7 ∧
    Array.at' (⟨fun i => i + 10⟩ : Array ℕ 2) 5 = 15 := by
  decide

/-- Claim C8 (code bug, Vector.h lines 210-214): `reAllocate(newCapacity)`
with `newCapacity < m_size` clamps `m_size` down to `newCapacity`, keeping
only the first `newCapacity` elements; the source marks the case with a
`// warning` comment only, the function returns `void`, and no error or
warning condition reaches the caller — the truncation is silent. -/
theorem reAllocate_shrink_clamps {T : Type} (v : Vector T)
    (newCapacity : Nat) (hlt : newCapacity < v.m_size) :
    (v.reAllocate newCapacity).m_size = newCapacity ∧
    (v.reAllocate newCapacity).m_capacity = newCapacity ∧
    (v.reAllocate newCapacity).m_data.length = newCapacity ∧
    (∀ i, i < newCapacity →
      (v.reAllocate newCapacity).get i = v.get i) := by
  refine ⟨by simp [Vector.reAllocate, hlt], by simp [Vector.reAllocate, hlt],
    by simp [Vector.reAllocate, hlt], ?_⟩
  unfold Vector.reAllocate
  simp only [if_pos hlt]
  intro i hi
  have hilen : i < (List.ofFn fun j : Fin newCapacity =>
      if (j : Nat) < newCapacity then v.m_data.getD j none else none).length := by
    simp
    omega
  show (List.ofFn fun j : Fin newCapacity =>
      if (j : Nat) < newCapacity then v.m_data.getD j none else none).getD i
      none = v.m_data.getD i none
  rw [List.getD_eq_getElem?_getD, List.getElem?_eq_getElem hilen,
    List.getElem_ofFn]
  simp [hi]

/-- Witness for C8: shrinking a three-element vector (capacity 5) to
capacity 1 keeps only the first element. -/
theorem reAllocate_shrink_clamps_witness :
    1 < ((((Vector.empty ℕ).pushBack 1).pushBack 2).pushBack 3).m_size ∧
    (((((Vector.empty ℕ).pushBack 1).pushBack 2).pushBack 3).reAllocate
        1).m_size = 1 ∧
    (((((Vector.empty ℕ).pushBack 1).pushBack 2).pushBack 3).reAllocate
        1).m_capacity = 1 ∧
    (((((Vector.empty ℕ).pushBack 1).pushBack 2).pushBack 3).reAllocate
        1).m_data.length = 1 ∧
    (∀ i, i < 1 →
      (((((Vector.empty ℕ).pushBack 1).pushBack 2).pushBack 3).reAllocate
          1).get i =
        ((((Vector.empty ℕ).pushBack 1).pushBack 2).pushBack 3).get i) := by
  refine ⟨by decide, ?_⟩
  exact reAllocate_shrink_clamps
    ((((Vector.empty ℕ).pushBack 1).pushBack 2).pushBack 3) 1 (by decide)

/-- Claim C9 (code bug, Functional.h lines 262-270 and 280-288): copy
assignment deletes the owned callable and then calls `copy()` through
`other.m_callable` with no self-assignment guard.  Between distinct wrappers
it destroys the old target before acquiring the duplicate and succeeds, but
assigning a wrapper to itself dereferences the pointer just deleted — a
use-after-free, modelled as a fault.  (Both overloads also fall off the end
without returning the declared `Function&`.) -/
theorem assign_self_use_after_free :
    Function.assign (Function.bind (Heap.empty Unit ℚ ℚ) (fun q : ℚ => q)).1
        (Function.bind (Heap.empty Unit ℚ ℚ) (fun q : ℚ => q)).2
        (Function.bind (Heap.empty Unit ℚ ℚ) (fun q : ℚ => q)).2 = none ∧
    (Function.assign
        (Function.bind (Function.bind (Heap.empty Unit ℚ ℚ)
          (fun q : ℚ => q)).1 (fun q : ℚ => q + 1)).1
        (Function.bind (Heap.empty Unit ℚ ℚ) (fun q : ℚ => q)).2
        (Function.bind (Function.bind (Heap.empty Unit ℚ ℚ)
          (fun q : ℚ => q)).1 (fun q : ℚ => q + 1)).2).isSome = true :=
  ⟨rfl, rfl⟩

end aex